import Mathlib

/-
Verification of the fetch/cache/retry core of jqURL (main.go).

The embedding models the two phases of the program:
  * the pre-loop cache scan in `main` (main.go lines 148-174), which walks the
    target list, stats each target's cache file, and on the first file passing
    the age check reads it, unmarshals it into the global `dat` map (ignoring
    the unmarshal error) and breaks;
  * the retry loop in `doCurl` (main.go lines 215-297), which round-robins the
    targets, issues one HTTP request per attempt, unmarshals the body into
    `dat`, optionally writes the body to the cache file, and sleeps the retry
    delay after the last target of each round-robin cycle;
  * the post-loop query/output phase in `doCurl` (main.go lines 299-337).

External collaborators (the HTTP transport, the filesystem, encoding/json's
byte-level parser, the gojq engine and the renderers fmt/json.Marshal) are
modelled as oracles carried by a `World` record; the program logic itself is
translated statement by statement from main.go.
-/

/-- A parsed JSON document as the program sees it.  `dat` in main.go has type
`map[string]interface{}`; `json.Unmarshal` into that variable distinguishes
only three shapes of a (syntactically valid) JSON document: an object (stored
as the map), `null` (sets the map to nil, no error), and anything else
(a type-mismatch error that leaves the map untouched).  Object field values
and non-object documents are never inspected by the program, so they are
carried as opaque numeric tags. -/
inductive JValue where
  | null : JValue
  | obj (fields : List (String × Nat)) : JValue
  | other (tag : Nat) : JValue
deriving DecidableEq

/-- A response/cache-file body: either bytes that fail JSON syntax checking
(tagged to keep distinct bodies distinct) or bytes parsing to a `JValue`. -/
inductive Content where
  | invalid (tag : Nat) : Content
  | valid (v : JValue) : Content
deriving DecidableEq

/-- The global `dat map[string]interface{}` of main.go: `none` is the nil map. -/
abbrev JDoc := Option (List (String × Nat))

/-- Go's `len` on a possibly-nil map (`len(dat)` at main.go line 215). -/
def datLen (d : JDoc) : Nat :=
  match d with
  | none => 0
  | some fs => fs.length

/-- `json.Unmarshal(byt, &dat)` at main.go lines 170 and 274: returns the new
value of `dat` and whether unmarshalling succeeded (`err == nil`).  A syntax
error or a top-level non-object/non-null document leaves `dat` unchanged and
reports failure; an object replaces `dat`; `null` sets `dat` to the nil map. -/
def unmarshalMap (c : Content) (dat : JDoc) : JDoc × Bool :=
  match c with
  | Content.invalid _ => (dat, false)
  | Content.valid JValue.null => (none, true)
  | Content.valid (JValue.obj fs) => (some fs, true)
  | Content.valid (JValue.other _) => (dat, false)

/-- Whether a body unmarshals into `map[string]interface{}` without error. -/
def parseOkB (c : Content) : Bool :=
  match c with
  | Content.invalid _ => false
  | Content.valid JValue.null => true
  | Content.valid (JValue.obj _) => true
  | Content.valid (JValue.other _) => false

/-- The configuration globals of main.go that the core logic reads. -/
structure Cfg where
  /-- `len(Args)` after the query string is shifted off: the number of URLs. -/
  numArgs : Nat
  /-- `maxTries` (flag `--max-tries`). -/
  maxTries : Nat
  /-- `useCache` (flag `--cache`). -/
  useCache : Bool
  /-- `flush` (flag `--flush`), the force-refresh switch. -/
  flush : Bool
  /-- `debug` (flag `--debug`). -/
  debug : Bool
  /-- `maxAge` (flag `--max-age`), in the same time unit as `World.now`. -/
  maxAge : Int
  /-- `method` (flag `--request`). -/
  method : String
  /-- `postData` (flag `--data`). -/
  postData : String
  /-- `raw` (flag `--raw-output`). -/
  raw : Bool
  /-- `pretty` (flag `--pretty`). -/
  pretty : Bool
deriving DecidableEq

/-- The external world: filesystem, clock and network, indexed by target
index (for the cache files) and by attempt index (for per-attempt outcomes). -/
structure World where
  /-- `time.Now()` during the cache scan. -/
  now : Int
  /-- `os.Stat(cacheFiles[i])`: `some mtime` when the stat succeeds. -/
  stat : Nat → Option Int
  /-- `ioutil.ReadFile(cacheFiles[i])`: `some body` when the read succeeds. -/
  readCache : Nat → Option Content
  /-- Attempt `j`'s transport outcome (`client.Do` + `ReadAll`):
  `none` is a transport-level error, `some body` a fully read body. -/
  net : Nat → Option Content
  /-- Whether `ioutil.WriteFile(cacheFiles[i], byt, 0666)` on attempt `j`
  succeeds. -/
  writeOk : Nat → Bool
  /-- Whether `os.Open(postData[1:])` on attempt `j` succeeds. -/
  postFileOk : Nat → Bool
  /-- Whether `http.NewRequestWithContext` on attempt `j` succeeds. -/
  newRequestOk : Nat → Bool

/-- Observable actions of the pre-loop cache scan. -/
inductive ScanEvent where
  | statCheck (i : Nat) : ScanEvent
  | read (i : Nat) : ScanEvent
deriving DecidableEq

/-- Whether a scan event is a cache-file read (`ioutil.ReadFile`). -/
def ScanEvent.isRead : ScanEvent → Bool
  | ScanEvent.read _ => true
  | ScanEvent.statCheck _ => false

/-- Result of the pre-loop cache scan: the final `dat`, the index at which the
scan broke (if any), and the filesystem actions it performed. -/
structure ScanResult where
  dat : JDoc
  hit : Option Nat
  events : List ScanEvent
deriving DecidableEq

/-- The body of the cache-scan loop of main.go lines 148-174, from index `i`
with `rem` indices left.  For each index: stat the cache file; if the stat
succeeded and `!flush && useCache && time.Now().Add(maxAge).After(stat.ModTime())`
(that is, `mtime < now + maxAge`), read the file; if the read succeeded,
unmarshal into `dat` ignoring the unmarshal error and break; otherwise move on
to the next index. -/
def scanFrom (cfg : Cfg) (w : World) : Nat → Nat → JDoc → ScanResult
  | _, 0, dat => ⟨dat, none, []⟩
  | i, rem + 1, dat =>
    match w.stat i with
    | none =>
      let r := scanFrom cfg w (i + 1) rem dat
      ⟨r.dat, r.hit, ScanEvent.statCheck i :: r.events⟩
    | some mt =>
      if cfg.flush = false ∧ cfg.useCache = true ∧ mt < w.now + cfg.maxAge then
        match w.readCache i with
        | some c =>
          ⟨(unmarshalMap c dat).1, some i, [ScanEvent.statCheck i, ScanEvent.read i]⟩
        | none =>
          let r := scanFrom cfg w (i + 1) rem dat
          ⟨r.dat, r.hit, ScanEvent.statCheck i :: r.events⟩
      else
        let r := scanFrom cfg w (i + 1) rem dat
        ⟨r.dat, r.hit, ScanEvent.statCheck i :: r.events⟩

/-- The whole pre-loop cache scan (`for i, Arg := range Args`, main.go line
148), starting from the zero-valued global `dat`. -/
def cacheScanTop (cfg : Cfg) (w : World) : ScanResult :=
  scanFrom cfg w 0 cfg.numArgs none

/-- Observable actions of the retry loop. -/
inductive FetchEvent where
  /-- An HTTP request issued on attempt `j` against `urls[target]`. -/
  | request (attempt target : Nat) : FetchEvent
  /-- A cache-file write of body `c` on attempt `j` to `cacheFiles[target]`,
  with the write's success recorded. -/
  | cacheWrite (attempt target : Nat) (c : Content) (ok : Bool) : FetchEvent
  /-- `time.Sleep(delay)` after attempt `j`. -/
  | sleep (attempt : Nat) : FetchEvent
deriving DecidableEq

/-- Whether a fetch event is the retry-delay sleep. -/
def FetchEvent.isSleep : FetchEvent → Bool
  | FetchEvent.sleep _ => true
  | _ => false

/-- Whether a fetch event is a cache-file write. -/
def FetchEvent.isWrite : FetchEvent → Bool
  | FetchEvent.cacheWrite _ _ _ _ => true
  | _ => false

/-- Number of retry-delay sleeps in a trace. -/
def sleepCount (evs : List FetchEvent) : Nat :=
  evs.countP FetchEvent.isSleep

/-- `len(postData) > 0 && postData[0] == '@'` (main.go line 226). -/
def postIsFile (s : String) : Bool :=
  s.length > 0 && s.front == '@'

/-- The two in-loop `log.Fatalf` exits that can fire before the request is
issued on attempt `j`: a POST body file that cannot be opened (main.go line
229) and a request-construction error (main.go line 243). -/
def preFatal (cfg : Cfg) (w : World) (j : Nat) : Bool :=
  (cfg.method == "POST" && postIsFile cfg.postData && !(w.postFileOk j)) ||
    !(w.newRequestOk j)

/-- The delay insertion of main.go lines 294-296: `time.Sleep(delay)` exactly
when `i % len(Args) == len(Args)-1`, where `i = j % len(Args)`. -/
def sleepEvs (cfg : Cfg) (j : Nat) : List FetchEvent :=
  if (j % cfg.numArgs) % cfg.numArgs = cfg.numArgs - 1 then [FetchEvent.sleep j]
  else []

/-- Outcome of one iteration of the retry loop body. -/
inductive StepOut where
  /-- A `log.Fatalf` fired: the process aborts with the events so far. -/
  | fatal (dat : JDoc) (evs : List FetchEvent) : StepOut
  /-- A `break` fired: the loop stops successfully. -/
  | broke (dat : JDoc) (evs : List FetchEvent) : StepOut
  /-- The iteration fell through to `j++` (including the conditional sleep). -/
  | cont (dat : JDoc) (evs : List FetchEvent) : StepOut
deriving DecidableEq

/-- The events emitted by a loop-body outcome. -/
def StepOut.evs : StepOut → List FetchEvent
  | StepOut.fatal _ e => e
  | StepOut.broke _ e => e
  | StepOut.cont _ e => e

/-- Whether the loop-body outcome is a `log.Fatalf` abort. -/
def StepOut.isFatal : StepOut → Bool
  | StepOut.fatal _ _ => true
  | _ => false

/-- Whether the loop-body outcome is a successful `break`. -/
def StepOut.isBroke : StepOut → Bool
  | StepOut.broke _ _ => true
  | _ => false

/-- One iteration of the retry loop body of main.go lines 215-296, at attempt
index `j` with current document `dat`:
select `i := j % len(Args)`; possibly abort opening the POST body file or
building the request; issue the request; on transport error fall through to
the sleep check; on a body, `json.Unmarshal(byt, &dat)` - on unmarshal error
`log.Fatalf` when `debug`, else fall through to the sleep check; on unmarshal
success `break` immediately when `!useCache`, else `ioutil.WriteFile` the body
to the cache file, `log.Fatalf` on a write error when `debug`, and `break`. -/
def attemptStep (cfg : Cfg) (w : World) (j : Nat) (dat : JDoc) : StepOut :=
  let i := j % cfg.numArgs
  if preFatal cfg w j = true then StepOut.fatal dat []
  else
    match w.net j with
    | none => StepOut.cont dat (FetchEvent.request j i :: sleepEvs cfg j)
    | some c =>
      let r := unmarshalMap c dat
      if r.2 = false then
        if cfg.debug = true then StepOut.fatal r.1 [FetchEvent.request j i]
        else StepOut.cont r.1 (FetchEvent.request j i :: sleepEvs cfg j)
      else if cfg.useCache = false then StepOut.broke r.1 [FetchEvent.request j i]
      else if w.writeOk j = false ∧ cfg.debug = true then
        StepOut.fatal r.1
          [FetchEvent.request j i, FetchEvent.cacheWrite j i c (w.writeOk j)]
      else
        StepOut.broke r.1
          [FetchEvent.request j i, FetchEvent.cacheWrite j i c (w.writeOk j)]

/-- How the retry loop ended: normally (condition false or `break`) or by a
`log.Fatalf` abort. -/
inductive LoopOutcome where
  | ok : LoopOutcome
  | fatal : LoopOutcome
deriving DecidableEq

/-- Result of running the retry loop: final `dat`, event trace, number of
iterations entered, and how it ended. -/
structure LoopResult where
  dat : JDoc
  events : List FetchEvent
  attempts : Nat
  outcome : LoopOutcome
deriving DecidableEq

/-- The loop continuation condition of main.go line 215:
`j < maxTries && len(dat) == 0`. -/
def loopCond (cfg : Cfg) (j : Nat) (dat : JDoc) : Prop :=
  j < cfg.maxTries ∧ datLen dat = 0

/-- The retry loop of main.go lines 215-297 from attempt index `j` with `rem`
iterations of budget left (`rem` stands for `maxTries - j`).  The condition
`len(dat) == 0` is re-checked before every iteration. -/
def loopFrom (cfg : Cfg) (w : World) : Nat → JDoc → Nat → LoopResult
  | _, dat, 0 => ⟨dat, [], 0, LoopOutcome.ok⟩
  | j, dat, rem + 1 =>
    if datLen dat = 0 then
      match attemptStep cfg w j dat with
      | StepOut.fatal d evs => ⟨d, evs, 1, LoopOutcome.fatal⟩
      | StepOut.broke d evs => ⟨d, evs, 1, LoopOutcome.ok⟩
      | StepOut.cont d evs =>
        let r := loopFrom cfg w (j + 1) d rem
        ⟨r.dat, evs ++ r.events, r.attempts + 1, r.outcome⟩
    else ⟨dat, [], 0, LoopOutcome.ok⟩

/-- The whole retry loop (`for j := 0; j < maxTries && len(dat) == 0; j++`),
started on the document `dat0` left by the cache scan. -/
def doCurlLoop (cfg : Cfg) (w : World) (dat0 : JDoc) : LoopResult :=
  loopFrom cfg w 0 dat0 cfg.maxTries

/-- A value yielded by the gojq iterator, as the output loop of main.go lines
304-337 sees it.  Rendering is external (`fmt`/`json.Marshal`), so a value
carries its four possible renderings. -/
structure RVal where
  /-- `fmt.Sprintf("%#v", v)` (the debug print at main.go line 313). -/
  goRepr : String
  /-- `fmt.Sprintf("%v", v)` (the raw output at main.go line 327). -/
  rawStr : String
  /-- `json.Marshal(v)` (main.go line 333). -/
  jsonStr : String
  /-- `json.MarshalIndent(v, "", "  ")` (main.go line 331). -/
  prettyStr : String
deriving DecidableEq

/-- An element of the gojq result sequence: an error value or a value. -/
inductive QOut where
  | err (tag : Nat) : QOut
  | val (v : RVal) : QOut
deriving DecidableEq

/-- Whether a gojq iterator element is an error value. -/
def isErr : QOut → Bool
  | QOut.err _ => true
  | QOut.val _ => false

/-- The line printed for one result value (main.go lines 326-336): `%v\n` when
raw, else the (pretty or compact) JSON marshalling followed by a newline. -/
def renderLine (cfg : Cfg) (v : RVal) : String :=
  if cfg.raw = true then v.rawStr ++ "\n"
  else (if cfg.pretty = true then v.prettyStr else v.jsonStr) ++ "\n"

/-- The per-result output loop of main.go lines 304-337.  For each yielded
value: an error value is fatal; otherwise when `debug` the `%#v` form is
printed to stdout; then, when an output file is configured, `os.Create`
(re-creating and truncating the file) and write the rendered line there,
else append the rendered line to stdout.  Returns `none` on a fatal exit and
otherwise the accumulated stdout lines and the final output-file contents. -/
def writeResults (cfg : Cfg) (useFile createOk : Bool) :
    List QOut → List String → Option String → Option (List String × Option String)
  | [], outAcc, fc => some (outAcc, fc)
  | QOut.err _ :: _, _, _ => none
  | QOut.val v :: rest, outAcc, fc =>
    let outAcc' := if cfg.debug = true then outAcc ++ [v.goRepr ++ "\n"] else outAcc
    if useFile = true then
      if createOk = false then none
      else writeResults cfg useFile createOk rest outAcc' (some (renderLine cfg v))
    else writeResults cfg useFile createOk rest (outAcc' ++ [renderLine cfg v]) fc

/-- The query-engine side of the world: whether `gojq.Parse(JQString)`
succeeds, the result sequence `query.Run(dat)` yields for a given document,
and whether `os.Create(outputFile)` succeeds. -/
structure QueryWorld where
  queryParseOk : Bool
  results : JDoc → List QOut
  createOk : Bool

/-- The process exit code of a whole run (cache scan, retry loop, query
phase): `log.Fatalf` exits with 1; normal completion exits with 0
(main.go lines 148-337). -/
def programExit (cfg : Cfg) (w : World) (q : QueryWorld) (useFile : Bool) : Nat :=
  let s := cacheScanTop cfg w
  let lr := doCurlLoop cfg w s.dat
  match lr.outcome with
  | LoopOutcome.fatal => 1
  | LoopOutcome.ok =>
    if q.queryParseOk = false then 1
    else
      match writeResults cfg useFile q.createOk (q.results lr.dat) [] none with
      | none => 1
      | some _ => 0

/-- An attempt that the retry loop absorbs without stopping: no pre-request
abort, and either a transport error or (with debug off) a body that fails to
unmarshal. -/
def quietFail (cfg : Cfg) (w : World) (k : Nat) : Prop :=
  preFatal cfg w k = false ∧
    (w.net k = none ∨
      ∃ c, w.net k = some c ∧ parseOkB c = false ∧ cfg.debug = false)

/-- The event trace of a run of the retry loop in which every attempt is
absorbed: one request per attempt, plus the sleep after each cycle's last
target. -/
def failTrace (cfg : Cfg) : Nat → Nat → List FetchEvent
  | _, 0 => []
  | j, rem + 1 =>
    (FetchEvent.request j (j % cfg.numArgs) :: sleepEvs cfg j) ++
      failTrace cfg (j + 1) rem

/-- The line one gojq result contributes to the output (empty for an error
value, which is fatal before printing anyway). -/
def lineOf (cfg : Cfg) : QOut → String
  | QOut.err _ => ""
  | QOut.val v => renderLine cfg v

/-- Concrete run: two targets, five tries, no cache, every request a
transport error. -/
def cfgAF : Cfg :=
  ⟨2, 5, false, false, false, 0, "GET", "", false, false⟩

/-- World for `cfgAF`: no cache files, every request fails at transport
level. -/
def wAF : World :=
  ⟨0, fun _ => none, fun _ => none, fun _ => none, fun _ => true, fun _ => true,
    fun _ => true⟩

/-- Concrete run exhibiting the reversed cache-age comparison: one target,
its cache file is 18000 time units old and `--max-age` is 14400. -/
def cfgC1 : Cfg :=
  ⟨1, 3, true, false, false, 14400, "GET", "", false, false⟩

/-- World for `cfgC1`: the sole cache file has modification time 0 and holds
a one-field object, while the clock reads 18000; the network always fails. -/
def wC1 : World :=
  ⟨18000, fun _ => some 0, fun _ => some (Content.valid (JValue.obj [("y", 2)])),
    fun _ => none, fun _ => true, fun _ => true, fun _ => true⟩

/-- Concrete run for the cache-hit short-circuit: one target, one try,
caching on, no flush. -/
def cfgC4x : Cfg :=
  ⟨1, 1, true, false, false, 100, "GET", "", false, false⟩

/-- World for `cfgC4x`: a just-written cache file holding the empty JSON
object `\x7b\x7d`, and a network that would answer a one-field object. -/
def wC4x : World :=
  ⟨50, fun _ => some 50, fun _ => some (Content.valid (JValue.obj [])),
    fun _ => some (Content.valid (JValue.obj [("x", 1)])), fun _ => true,
    fun _ => true, fun _ => true⟩

/-- Concrete run for the amended cache-hit short-circuit: same shape as
`cfgC4x` but the cached file holds a non-empty object. -/
def cfgC4w : Cfg :=
  ⟨1, 3, true, false, false, 10, "GET", "", false, false⟩

/-- World for `cfgC4w`: fresh cache file holding a one-field object. -/
def wC4w : World :=
  ⟨0, fun _ => some 0, fun _ => some (Content.valid (JValue.obj [("y", 2)])),
    fun _ => none, fun _ => true, fun _ => true, fun _ => true⟩

/-- Concrete run for the flush/store behaviour: one target, flush set,
caching on, fresh cache file present, network answering an object. -/
def cfgC5a : Cfg :=
  ⟨1, 1, true, true, false, 10, "GET", "", false, false⟩

/-- Concrete run with caching disabled entirely. -/
def cfgC5b : Cfg :=
  ⟨1, 1, false, false, false, 10, "GET", "", false, false⟩

/-- World for `cfgC5a`/`cfgC5b`: a fresh readable cache file and a network
answering a one-field object on every attempt. -/
def wC5 : World :=
  ⟨0, fun _ => some 0, fun _ => some (Content.valid (JValue.obj [("a", 1)])),
    fun _ => some (Content.valid (JValue.obj [("a", 1)])), fun _ => true,
    fun _ => true, fun _ => true⟩

/-- Concrete run for exhaustion: one target, two tries, no cache, network
always failing. -/
def cfgC6 : Cfg :=
  ⟨1, 2, false, false, false, 0, "GET", "", false, false⟩

/-- World for `cfgC6`: no cache files, every request a transport error. -/
def wC6 : World :=
  ⟨0, fun _ => none, fun _ => none, fun _ => none, fun _ => true, fun _ => true,
    fun _ => true⟩

/-- Query world for `cfgC6`: the query compiles and yields no results. -/
def qC6 : QueryWorld :=
  ⟨true, fun _ => [], true⟩

/-- Concrete run for the debug-promotion asymmetry: one target, caching on,
debug off. -/
def cfgC7 : Cfg :=
  ⟨1, 5, true, false, false, 0, "GET", "", false, false⟩

/-- World for `cfgC7`: attempt 0 returns a body that is not valid JSON,
attempt 1 returns an object but the cache write fails. -/
def wC7 : World :=
  ⟨0, fun _ => none, fun _ => none,
    fun k => if k = 0 then some (Content.invalid 0)
      else some (Content.valid (JValue.obj [("a", 1)])),
    fun _ => false, fun _ => true, fun _ => true⟩

/-- Concrete run for the invalid-JSON cache file: two targets, caching on. -/
def cfgC9 : Cfg :=
  ⟨2, 3, true, false, false, 10, "GET", "", false, false⟩

/-- World for `cfgC9`: every cache file is fresh and readable but holds
bytes that are not valid JSON; the network always fails. -/
def wC9 : World :=
  ⟨0, fun _ => some 0, fun _ => some (Content.invalid 7), fun _ => none,
    fun _ => true, fun _ => true, fun _ => true⟩

/-- A concrete rendered gojq value. -/
def rvA : RVal := ⟨"gA", "rA", "jA", "pA"⟩

/-- A second concrete rendered gojq value. -/
def rvB : RVal := ⟨"gB", "rB", "jB", "pB"⟩

/-- Unmarshalling reports success exactly on a syntactically valid object or
null document. -/
theorem unmarshal_snd (c : Content) (d : JDoc) : (unmarshalMap c d).2 = parseOkB c := by
  cases c with
  | invalid t => rfl
  | valid v => cases v <;> rfl

/-- A failed unmarshal leaves `dat` untouched. -/
theorem unmarshal_bad (c : Content) (d : JDoc) (h : parseOkB c = false) :
    unmarshalMap c d = (d, false) := by
  cases c with
  | invalid t => rfl
  | valid v => cases v <;> simp_all [parseOkB, unmarshalMap]

/-- With a non-empty document the retry loop does nothing at all. -/
theorem loopFrom_ne (cfg : Cfg) (w : World) (j : Nat) (dat : JDoc) (rem : Nat)
    (h : datLen dat ≠ 0) :
    loopFrom cfg w j dat rem = ⟨dat, [], 0, LoopOutcome.ok⟩ := by
  cases rem with
  | zero => rfl
  | succ n => simp [loopFrom, h]

/-- An absorbed attempt leaves the document unchanged and contributes one
request plus the conditional sleep. -/
theorem step_quiet (cfg : Cfg) (w : World) (j : Nat) (dat : JDoc)
    (h : quietFail cfg w j) :
    attemptStep cfg w j dat =
      StepOut.cont dat (FetchEvent.request j (j % cfg.numArgs) :: sleepEvs cfg j) := by
  obtain ⟨hpre, hnet⟩ := h
  unfold attemptStep
  rw [hpre]
  rcases hnet with h1 | ⟨c, hc, hbad, hdbg⟩
  · rw [h1]
    simp
  · rw [hc]
    simp [unmarshal_bad c dat hbad, hdbg]

/-- When every attempt is absorbed, the loop runs its whole budget, keeps the
empty document, ends normally, and emits exactly the all-fail trace. -/
theorem loop_allFail (cfg : Cfg) (w : World)
    (hfail : ∀ k, quietFail cfg w k) :
    ∀ rem j dat, datLen dat = 0 →
      loopFrom cfg w j dat rem = ⟨dat, failTrace cfg j rem, rem, LoopOutcome.ok⟩ := by
  intro rem
  induction rem with
  | zero => intro j dat _; rfl
  | succ n ih =>
    intro j dat h
    rw [loopFrom, if_pos h, step_quiet cfg w j dat (hfail j)]
    simp [ih (j + 1) dat h, failTrace]

/-- `j + 1` is a multiple of `N` exactly when `j` ends a round-robin cycle. -/
theorem succ_mod_zero_iff (N j : Nat) (hN : 0 < N) :
    (j + 1) % N = 0 ↔ j % N = N - 1 := by
  rcases Nat.eq_or_lt_of_le hN with h1 | h1
  · rw [← h1]
    simp [Nat.mod_one]
  · have hr : j % N < N := Nat.mod_lt j hN
    have hm : (j + 1) % N = (j % N + 1) % N := by
      conv_lhs => rw [Nat.add_mod]
      rw [Nat.mod_eq_of_lt h1]
    rw [hm]
    constructor
    · intro h
      by_contra hne
      have hlt : j % N + 1 < N := by omega
      rw [Nat.mod_eq_of_lt hlt] at h
      omega
    · intro h
      rw [h]
      have h2 : N - 1 + 1 = N := by omega
      rw [h2, Nat.mod_self]

/-- Division by `N` steps exactly at the ends of round-robin cycles. -/
theorem succ_div_eq (N j : Nat) (hN : 0 < N) :
    (j + 1) / N = j / N + (if j % N = N - 1 then 1 else 0) := by
  rw [Nat.succ_div]
  congr 1
  have h := succ_mod_zero_iff N j hN
  have hd : N ∣ j + 1 ↔ (j + 1) % N = 0 := Nat.dvd_iff_mod_eq_zero
  by_cases hc : j % N = N - 1
  · rw [if_pos hc, if_pos (hd.mpr (h.mpr hc))]
  · rw [if_neg hc, if_neg (fun hx => hc (h.mp (hd.mp hx)))]

/-- The conditional sleep contributes one sleep exactly at the end of a
round-robin cycle. -/
theorem sleepEvs_count (cfg : Cfg) (j : Nat) :
    sleepCount (sleepEvs cfg j) =
      if j % cfg.numArgs = cfg.numArgs - 1 then 1 else 0 := by
  unfold sleepEvs
  rw [Nat.mod_mod_of_dvd j dvd_rfl]
  by_cases hc : j % cfg.numArgs = cfg.numArgs - 1
  · rw [if_pos hc, if_pos hc]
    simp [sleepCount, FetchEvent.isSleep]
  · rw [if_neg hc, if_neg hc]
    simp [sleepCount]

/-- Sleeps in the all-fail trace count the completed round-robin cycles. -/
theorem failTrace_sleepCount (cfg : Cfg) (hN : 0 < cfg.numArgs) :
    ∀ rem j, sleepCount (failTrace cfg j rem) =
      (j + rem) / cfg.numArgs - j / cfg.numArgs := by
  intro rem
  induction rem with
  | zero => intro j; simp [failTrace, sleepCount]
  | succ n ih =>
    intro j
    have hstep : sleepCount (failTrace cfg j (n + 1)) =
        (if j % cfg.numArgs = cfg.numArgs - 1 then 1 else 0) +
          sleepCount (failTrace cfg (j + 1) n) := by
      rw [failTrace, List.cons_append]
      unfold sleepCount
      rw [List.countP_cons, List.countP_append]
      have h1 : FetchEvent.isSleep (FetchEvent.request j (j % cfg.numArgs)) = false := rfl
      rw [h1]
      have h2 := sleepEvs_count cfg j
      unfold sleepCount at h2
      rw [h2]
      simp
    rw [hstep, ih (j + 1)]
    have hdiv := succ_div_eq cfg.numArgs j hN
    have hmono : (j + 1) / cfg.numArgs ≤ (j + 1 + n) / cfg.numArgs :=
      Nat.div_le_div_right (by omega)
    have hre : j + (n + 1) = j + 1 + n := by omega
    rw [hre]
    obtain ⟨a, ha⟩ : ∃ a, j / cfg.numArgs = a := ⟨_, rfl⟩
    obtain ⟨b, hb⟩ : ∃ b, (j + 1) / cfg.numArgs = b := ⟨_, rfl⟩
    obtain ⟨c, hcv⟩ : ∃ c, (j + 1 + n) / cfg.numArgs = c := ⟨_, rfl⟩
    rw [ha, hb] at hdiv
    rw [hb, hcv] at hmono
    rw [ha, hcv]
    by_cases hc : j % cfg.numArgs = cfg.numArgs - 1
    · rw [if_pos hc] at hdiv ⊢
      omega
    · rw [if_neg hc] at hdiv ⊢
      omega

/-- Every sleep in the all-fail trace follows the last target of a cycle. -/
theorem failTrace_sleep_mem (cfg : Cfg) :
    ∀ rem j k, FetchEvent.sleep k ∈ failTrace cfg j rem →
      k % cfg.numArgs = cfg.numArgs - 1 := by
  intro rem
  induction rem with
  | zero => intro j k h; simp [failTrace] at h
  | succ n ih =>
    intro j k h
    rw [failTrace] at h
    simp only [List.cons_append, List.mem_cons, List.mem_append] at h
    rcases h with h | h | h
    · exact absurd h (by simp)
    · unfold sleepEvs at h
      split at h
      · next hcond =>
        simp only [List.mem_singleton] at h
        have hk : k = j := by
          injection h
        subst hk
        rwa [Nat.mod_mod_of_dvd k dvd_rfl] at hcond
      · simp at h
    · exact ih (j + 1) k h

/-- The all-fail trace contains the request of every attempt in range,
against the round-robin target. -/
theorem failTrace_request_mem (cfg : Cfg) :
    ∀ rem j k, j ≤ k → k < j + rem →
      FetchEvent.request k (k % cfg.numArgs) ∈ failTrace cfg j rem := by
  intro rem
  induction rem with
  | zero => intro j k h1 h2; omega
  | succ n ih =>
    intro j k h1 h2
    rw [failTrace]
    simp only [List.cons_append, List.mem_cons, List.mem_append]
    rcases Nat.eq_or_lt_of_le h1 with he | hl
    · subst he
      exact Or.inl rfl
    · exact Or.inr (Or.inr (ih (j + 1) k hl (by omega)))

/-- Membership in the conditional sleep list forces the sleep of the same
attempt. -/
theorem sleepEvs_mem (cfg : Cfg) (j : Nat) (e : FetchEvent)
    (h : e ∈ sleepEvs cfg j) : e = FetchEvent.sleep j := by
  unfold sleepEvs at h
  split at h
  · simpa using h
  · simp at h

/-- Every event emitted by one loop iteration at attempt `j` is a request, a
cache write against the round-robin target, or the sleep, all tagged `j`. -/
theorem step_evs_shape (cfg : Cfg) (w : World) (j : Nat) (dat : JDoc) :
    ∀ e ∈ (attemptStep cfg w j dat).evs,
      e = FetchEvent.request j (j % cfg.numArgs) ∨
      (∃ c b, e = FetchEvent.cacheWrite j (j % cfg.numArgs) c b) ∨
      e = FetchEvent.sleep j := by
  intro e he
  unfold attemptStep at he
  by_cases hpre : preFatal cfg w j = true
  · rw [if_pos hpre] at he
    simp [StepOut.evs] at he
  · rw [if_neg hpre] at he
    cases hn : w.net j with
    | none =>
      rw [hn] at he
      simp only [StepOut.evs, List.mem_cons] at he
      rcases he with he | he
      · exact Or.inl he
      · exact Or.inr (Or.inr (sleepEvs_mem cfg j e he))
    | some c =>
      rw [hn] at he
      dsimp only at he
      by_cases hu : (unmarshalMap c dat).2 = false
      · rw [if_pos hu] at he
        by_cases hdbg : cfg.debug = true
        · rw [if_pos hdbg] at he
          simp only [StepOut.evs, List.mem_singleton] at he
          exact Or.inl he
        · rw [if_neg hdbg] at he
          simp only [StepOut.evs, List.mem_cons] at he
          rcases he with he | he
          · exact Or.inl he
          · exact Or.inr (Or.inr (sleepEvs_mem cfg j e he))
      · rw [if_neg hu] at he
        by_cases hc : cfg.useCache = false
        · rw [if_pos hc] at he
          simp only [StepOut.evs, List.mem_singleton] at he
          exact Or.inl he
        · rw [if_neg hc] at he
          by_cases hw : w.writeOk j = false ∧ cfg.debug = true
          · rw [if_pos hw] at he
            simp only [StepOut.evs, List.mem_cons, List.mem_singleton] at he
            rcases he with he | he | he
            · exact Or.inl he
            · exact Or.inr (Or.inl ⟨c, w.writeOk j, he⟩)
            · simp at he
          · rw [if_neg hw] at he
            simp only [StepOut.evs, List.mem_cons, List.mem_singleton] at he
            rcases he with he | he | he
            · exact Or.inl he
            · exact Or.inr (Or.inl ⟨c, w.writeOk j, he⟩)
            · simp at he

/-- Every event in the loop's trace is a request, cache write or sleep of
some attempt at or after the starting attempt, against the round-robin
target. -/
theorem loop_evs_shape (cfg : Cfg) (w : World) :
    ∀ rem j dat e, e ∈ (loopFrom cfg w j dat rem).events →
      ∃ k, j ≤ k ∧
        (e = FetchEvent.request k (k % cfg.numArgs) ∨
         (∃ c b, e = FetchEvent.cacheWrite k (k % cfg.numArgs) c b) ∨
         e = FetchEvent.sleep k) := by
  intro rem
  induction rem with
  | zero => intro j dat e h; simp [loopFrom] at h
  | succ n ih =>
    intro j dat e h
    rw [loopFrom] at h
    by_cases hd : datLen dat = 0
    · rw [if_pos hd] at h
      cases hs : attemptStep cfg w j dat with
      | fatal d evs =>
        rw [hs] at h
        have : e ∈ (attemptStep cfg w j dat).evs := by rw [hs]; exact h
        exact ⟨j, le_refl j, step_evs_shape cfg w j dat e this⟩
      | broke d evs =>
        rw [hs] at h
        have : e ∈ (attemptStep cfg w j dat).evs := by rw [hs]; exact h
        exact ⟨j, le_refl j, step_evs_shape cfg w j dat e this⟩
      | cont d evs =>
        rw [hs] at h
        simp only [List.mem_append] at h
        rcases h with h | h
        · have : e ∈ (attemptStep cfg w j dat).evs := by rw [hs]; exact h
          exact ⟨j, le_refl j, step_evs_shape cfg w j dat e this⟩
        · obtain ⟨k, hk, hsh⟩ := ih (j + 1) d e h
          exact ⟨k, by omega, hsh⟩
    · rw [if_neg hd] at h
      simp at h

/-- The loop never enters more iterations than its budget. -/
theorem loop_attempts_le (cfg : Cfg) (w : World) :
    ∀ rem j dat, (loopFrom cfg w j dat rem).attempts ≤ rem := by
  intro rem
  induction rem with
  | zero => intro j dat; simp [loopFrom]
  | succ n ih =>
    intro j dat
    rw [loopFrom]
    by_cases hd : datLen dat = 0
    · rw [if_pos hd]
      cases hs : attemptStep cfg w j dat with
      | fatal d evs => simp
      | broke d evs => simp
      | cont d evs =>
        simp only
        have := ih (j + 1) d
        omega
    · rw [if_neg hd]
      simp

/-- A successful (`break`) iteration inserts no retry delay. -/
theorem step_broke_no_sleep (cfg : Cfg) (w : World) (j : Nat) (dat : JDoc)
    (d : JDoc) (evs : List FetchEvent)
    (h : attemptStep cfg w j dat = StepOut.broke d evs) : sleepCount evs = 0 := by
  unfold attemptStep at h
  by_cases hpre : preFatal cfg w j = true
  · rw [if_pos hpre] at h
    cases h
  · rw [if_neg hpre] at h
    cases hn : w.net j with
    | none =>
      rw [hn] at h
      cases h
    | some c =>
      rw [hn] at h
      dsimp only at h
      by_cases hu : (unmarshalMap c dat).2 = false
      · rw [if_pos hu] at h
        by_cases hdbg : cfg.debug = true
        · rw [if_pos hdbg] at h; cases h
        · rw [if_neg hdbg] at h; cases h
      · rw [if_neg hu] at h
        by_cases hc : cfg.useCache = false
        · rw [if_pos hc] at h
          injection h with h1 h2
          subst h2
          simp [sleepCount, FetchEvent.isSleep]
        · rw [if_neg hc] at h
          by_cases hw : w.writeOk j = false ∧ cfg.debug = true
          · rw [if_pos hw] at h; cases h
          · rw [if_neg hw] at h
            injection h with h1 h2
            subst h2
            simp [sleepCount, FetchEvent.isSleep]

/-- When the pre-request fatal exits do not fire, the iteration issues its
HTTP request against the round-robin target. -/
theorem step_request_mem (cfg : Cfg) (w : World) (j : Nat) (dat : JDoc)
    (h : preFatal cfg w j = false) :
    FetchEvent.request j (j % cfg.numArgs) ∈ (attemptStep cfg w j dat).evs := by
  unfold attemptStep
  rw [if_neg (by simp [h] : ¬preFatal cfg w j = true)]
  cases hn : w.net j with
  | none => simp [StepOut.evs]
  | some c =>
    dsimp only
    by_cases hu : (unmarshalMap c dat).2 = false
    · rw [if_pos hu]
      by_cases hdbg : cfg.debug = true
      · rw [if_pos hdbg]; simp [StepOut.evs]
      · rw [if_neg hdbg]; simp [StepOut.evs]
    · rw [if_neg hu]
      by_cases hc : cfg.useCache = false
      · rw [if_pos hc]; simp [StepOut.evs]
      · rw [if_neg hc]
        by_cases hw : w.writeOk j = false ∧ cfg.debug = true
        · rw [if_pos hw]; simp [StepOut.evs]
        · rw [if_neg hw]; simp [StepOut.evs]

/-- Events of the first iteration are events of the whole loop. -/
theorem loop_step_sub (cfg : Cfg) (w : World) (j : Nat) (dat : JDoc) (rem : Nat)
    (hd : datLen dat = 0) (e : FetchEvent)
    (he : e ∈ (attemptStep cfg w j dat).evs) :
    e ∈ (loopFrom cfg w j dat (rem + 1)).events := by
  rw [loopFrom, if_pos hd]
  cases hs : attemptStep cfg w j dat with
  | fatal d evs =>
    rw [hs] at he
    exact he
  | broke d evs =>
    rw [hs] at he
    exact he
  | cont d evs =>
    rw [hs] at he
    exact List.mem_append_left _ he

/-- A successfully parsed body is written to the round-robin target's cache
file whenever caching is enabled, whatever the write's own outcome. -/
theorem step_write_mem (cfg : Cfg) (w : World) (j : Nat) (dat : JDoc) (c : Content)
    (hpre : preFatal cfg w j = false) (hnet : w.net j = some c)
    (hok : parseOkB c = true) (huc : cfg.useCache = true) :
    FetchEvent.cacheWrite j (j % cfg.numArgs) c (w.writeOk j) ∈
      (attemptStep cfg w j dat).evs := by
  unfold attemptStep
  rw [if_neg (by simp [hpre] : ¬preFatal cfg w j = true), hnet]
  dsimp only
  have hu : ¬(unmarshalMap c dat).2 = false := by
    rw [unmarshal_snd, hok]
    simp
  rw [if_neg hu, if_neg (by simp [huc] : ¬cfg.useCache = false)]
  by_cases hw : w.writeOk j = false ∧ cfg.debug = true
  · rw [if_pos hw]
    simp [StepOut.evs]
  · rw [if_neg hw]
    simp [StepOut.evs]

/-- With caching disabled an iteration emits no cache write. -/
theorem step_no_write (cfg : Cfg) (w : World) (j : Nat) (dat : JDoc)
    (huc : cfg.useCache = false) :
    ∀ e ∈ (attemptStep cfg w j dat).evs, e.isWrite = false := by
  intro e he
  unfold attemptStep at he
  by_cases hpre : preFatal cfg w j = true
  · rw [if_pos hpre] at he
    simp [StepOut.evs] at he
  · rw [if_neg hpre] at he
    cases hn : w.net j with
    | none =>
      rw [hn] at he
      simp only [StepOut.evs, List.mem_cons] at he
      rcases he with he | he
      · subst he; rfl
      · rw [sleepEvs_mem cfg j e he]; rfl
    | some c =>
      rw [hn] at he
      dsimp only at he
      by_cases hu : (unmarshalMap c dat).2 = false
      · rw [if_pos hu] at he
        by_cases hdbg : cfg.debug = true
        · rw [if_pos hdbg] at he
          simp only [StepOut.evs, List.mem_singleton] at he
          subst he; rfl
        · rw [if_neg hdbg] at he
          simp only [StepOut.evs, List.mem_cons] at he
          rcases he with he | he
          · subst he; rfl
          · rw [sleepEvs_mem cfg j e he]; rfl
      · rw [if_neg hu, if_pos huc] at he
        simp only [StepOut.evs, List.mem_singleton] at he
        subst he; rfl

/-- With caching disabled the whole loop emits no cache write. -/
theorem loop_no_write (cfg : Cfg) (w : World) (huc : cfg.useCache = false) :
    ∀ rem j dat e, e ∈ (loopFrom cfg w j dat rem).events → e.isWrite = false := by
  intro rem
  induction rem with
  | zero => intro j dat e h; simp [loopFrom] at h
  | succ n ih =>
    intro j dat e h
    rw [loopFrom] at h
    by_cases hd : datLen dat = 0
    · rw [if_pos hd] at h
      cases hs : attemptStep cfg w j dat with
      | fatal d evs =>
        rw [hs] at h
        exact step_no_write cfg w j dat huc e (by rw [hs]; exact h)
      | broke d evs =>
        rw [hs] at h
        exact step_no_write cfg w j dat huc e (by rw [hs]; exact h)
      | cont d evs =>
        rw [hs] at h
        rcases List.mem_append.mp h with h1 | h1
        · exact step_no_write cfg w j dat huc e (by rw [hs]; exact h1)
        · exact ih (j + 1) d e h1
    · rw [if_neg hd] at h
      simp at h

/-- When no index can pass the age-check condition, the scan neither reads a
file nor changes the document nor breaks. -/
theorem scan_no_hit (cfg : Cfg) (w : World)
    (h : ∀ i mt, w.stat i = some mt →
      ¬(cfg.flush = false ∧ cfg.useCache = true ∧ mt < w.now + cfg.maxAge)) :
    ∀ rem i dat,
      (scanFrom cfg w i rem dat).dat = dat ∧
      (scanFrom cfg w i rem dat).hit = none ∧
      ∀ e ∈ (scanFrom cfg w i rem dat).events, e.isRead = false := by
  intro rem
  induction rem with
  | zero =>
    intro i dat
    refine ⟨rfl, rfl, ?_⟩
    intro e he
    simp [scanFrom] at he
  | succ n ih =>
    intro i dat
    cases hst : w.stat i with
    | none =>
      rw [scanFrom, hst]
      obtain ⟨h1, h2, h3⟩ := ih (i + 1) dat
      refine ⟨h1, h2, ?_⟩
      intro e he
      simp only [List.mem_cons] at he
      rcases he with he | he
      · subst he; rfl
      · exact h3 e he
    | some mt =>
      rw [scanFrom, hst]
      dsimp only
      rw [if_neg (h i mt hst)]
      obtain ⟨h1, h2, h3⟩ := ih (i + 1) dat
      refine ⟨h1, h2, ?_⟩
      intro e he
      simp only [List.mem_cons] at he
      rcases he with he | he
      · subst he; rfl
      · exact h3 e he

/-- When index 0 passes the age check and its cache file is readable, the
scan breaks at index 0 with the unmarshalled document, having examined no
other index. -/
theorem scan_hit_zero (cfg : Cfg) (w : World) (mt : Int) (c : Content)
    (hN : 0 < cfg.numArgs)
    (hstat : w.stat 0 = some mt) (hfl : cfg.flush = false)
    (huc : cfg.useCache = true) (hfresh : mt < w.now + cfg.maxAge)
    (hread : w.readCache 0 = some c) :
    cacheScanTop cfg w =
      ⟨(unmarshalMap c none).1, some 0,
        [ScanEvent.statCheck 0, ScanEvent.read 0]⟩ := by
  unfold cacheScanTop
  cases hna : cfg.numArgs with
  | zero => omega
  | succ m =>
    rw [scanFrom, hstat]
    dsimp only
    rw [if_pos ⟨hfl, huc, hfresh⟩, hread]

/-- With a creatable output file and no error value in the result sequence,
the output loop completes (no fatal exit). -/
theorem wr_total (cfg : Cfg) (useFile : Bool) :
    ∀ rs acc fc, (∀ r ∈ rs, isErr r = false) →
      ∃ z, writeResults cfg useFile true rs acc fc = some z := by
  intro rs
  induction rs with
  | nil => intro acc fc _; exact ⟨(acc, fc), rfl⟩
  | cons x rest ih =>
    intro acc fc h
    cases x with
    | err t =>
      have := h (QOut.err t) (List.mem_cons_self _ _)
      simp [isErr] at this
    | val v =>
      rw [writeResults]
      have hrest : ∀ r ∈ rest, isErr r = false :=
        fun r hr => h r (List.mem_cons_of_mem _ hr)
      cases useFile with
      | true =>
        rw [if_pos rfl, if_neg (by simp : ¬(true = false))]
        exact ih _ _ hrest
      | false =>
        rw [if_neg (by simp : ¬(false = true))]
        exact ih _ _ hrest

/-- With an output file configured and debug off, the output loop leaves
stdout untouched and the file holds exactly the last value's line. -/
theorem wr_file_last (cfg : Cfg) (hdbg : cfg.debug = false) :
    ∀ rs v acc fc, (∀ r ∈ rs, isErr r = false) →
      rs.getLast? = some (QOut.val v) →
      writeResults cfg true true rs acc fc =
        some (acc, some (renderLine cfg v)) := by
  intro rs
  induction rs with
  | nil => intro v acc fc _ hl; simp at hl
  | cons x rest ih =>
    intro v acc fc h hl
    cases x with
    | err t =>
      have := h (QOut.err t) (List.mem_cons_self _ _)
      simp [isErr] at this
    | val u =>
      have hrest : ∀ r ∈ rest, isErr r = false :=
        fun r hr => h r (List.mem_cons_of_mem _ hr)
      cases rest with
      | nil =>
        simp only [List.getLast?_singleton, Option.some_inj] at hl
        have hu : u = v := by injection hl
        subst hu
        rw [writeResults, hdbg]
        simp [writeResults]
      | cons y ys =>
        have hl' : (y :: ys).getLast? = some (QOut.val v) := by
          rwa [List.getLast?_cons_cons] at hl
        rw [writeResults, hdbg]
        simp only [if_neg (by simp : ¬(false = true)), if_pos rfl,
          if_neg (by simp : ¬(true = false))]
        exact ih v acc _ hrest hl'

/-- Without an output file and with debug off, every value's line is
appended to stdout in order. -/
theorem wr_stdout_all (cfg : Cfg) (hdbg : cfg.debug = false) :
    ∀ rs acc fc, (∀ r ∈ rs, isErr r = false) →
      writeResults cfg false true rs acc fc =
        some (acc ++ rs.map (lineOf cfg), fc) := by
  intro rs
  induction rs with
  | nil => intro acc fc _; simp [writeResults]
  | cons x rest ih =>
    intro acc fc h
    cases x with
    | err t =>
      have := h (QOut.err t) (List.mem_cons_self _ _)
      simp [isErr] at this
    | val u =>
      have hrest : ∀ r ∈ rest, isErr r = false :=
        fun r hr => h r (List.mem_cons_of_mem _ hr)
      rw [writeResults, hdbg]
      simp only [if_neg (by simp : ¬(false = true))]
      rw [ih (acc ++ [renderLine cfg u]) fc hrest]
      simp [lineOf]

/-- C1: the claim states that the cache lookup is a hit only when an entry
exists AND `now ≤ mtime + maxAge`, and that an older entry is treated as
missing so the orchestrator proceeds to a network fetch.  The code at
main.go line 158 instead tests `time.Now().Add(maxAge).After(stat.ModTime())`,
i.e. `mtime < now + maxAge`, which every entry written in the past satisfies:
here the sole cache entry is 18000 time units old against a max-age of 14400
(so `now ≤ mtime + maxAge` fails), yet the scan reports a hit, the stale
bytes become the document, and the retry loop issues no network request. -/
theorem C1_stale_cache_used :
    wC1.stat 0 = some 0 ∧ wC1.now = 18000 ∧ cfgC1.maxAge = 14400 ∧
    ¬(wC1.now ≤ 0 + cfgC1.maxAge) ∧
    (cacheScanTop cfgC1 wC1).hit = some 0 ∧
    (cacheScanTop cfgC1 wC1).dat = some [("y", 2)] ∧
    doCurlLoop cfgC1 wC1 (cacheScanTop cfgC1 wC1).dat =
      ⟨some [("y", 2)], [], 0, LoopOutcome.ok⟩ := by
  decide

/-- C2: when every attempt is absorbed as a failure, the retry loop performs
at most (here: exactly) `maxTries` attempts, inserts the delay exactly
`maxTries / numArgs` times, only ever after an attempt whose index `k`
satisfies `k mod numArgs = numArgs - 1`, and never after a successful
(`break`) attempt. -/
theorem C2_attempts_and_delay_pacing (cfg : Cfg) (w : World) (dat0 : JDoc)
    (hN : 0 < cfg.numArgs)
    (hfail : ∀ k, quietFail cfg w k)
    (hdat : datLen dat0 = 0) :
    (∀ w2 d, (doCurlLoop cfg w2 d).attempts ≤ cfg.maxTries) ∧
    (doCurlLoop cfg w dat0).attempts = cfg.maxTries ∧
    sleepCount (doCurlLoop cfg w dat0).events = cfg.maxTries / cfg.numArgs ∧
    (∀ k, FetchEvent.sleep k ∈ (doCurlLoop cfg w dat0).events →
      k % cfg.numArgs = cfg.numArgs - 1) ∧
    (∀ w2 j d d2 evs, attemptStep cfg w2 j d = StepOut.broke d2 evs →
      sleepCount evs = 0) := by
  have hloop := loop_allFail cfg w hfail cfg.maxTries 0 dat0 hdat
  refine ⟨?_, ?_, ?_, ?_, ?_⟩
  · intro w2 d
    exact loop_attempts_le cfg w2 cfg.maxTries 0 d
  · unfold doCurlLoop
    rw [hloop]
  · unfold doCurlLoop
    rw [hloop]
    have h := failTrace_sleepCount cfg hN cfg.maxTries 0
    simpa using h
  · intro k hk
    unfold doCurlLoop at hk
    rw [hloop] at hk
    exact failTrace_sleep_mem cfg cfg.maxTries 0 k hk
  · intro w2 j d d2 evs hs
    exact step_broke_no_sleep cfg w2 j d d2 evs hs

/-- Witness for C2: two targets, five tries, all failing: five attempts and
two delays. -/
theorem C2_witness :
    (doCurlLoop cfgAF wAF none).attempts = cfgAF.maxTries ∧
    sleepCount (doCurlLoop cfgAF wAF none).events =
      cfgAF.maxTries / cfgAF.numArgs := by
  have h := C2_attempts_and_delay_pacing cfgAF wAF none (by decide)
    (fun k => ⟨rfl, Or.inl rfl⟩) rfl
  exact ⟨h.2.1, h.2.2.1⟩

/-- C3: every request (and every in-loop cache write) of attempt `k` goes
against `targets[k mod N]`, and when all attempts fail every attempt index
below `maxTries` actually issues its round-robin request - no target is
dropped from the rotation. -/
theorem C3_round_robin_targets (cfg : Cfg) (w : World) (dat0 : JDoc)
    (hN : 0 < cfg.numArgs)
    (hfail : ∀ k, quietFail cfg w k)
    (hdat : datLen dat0 = 0) :
    (∀ w2 d k t, FetchEvent.request k t ∈ (doCurlLoop cfg w2 d).events →
      t = k % cfg.numArgs) ∧
    (∀ w2 d k t c b,
      FetchEvent.cacheWrite k t c b ∈ (doCurlLoop cfg w2 d).events →
      t = k % cfg.numArgs) ∧
    (∀ k, k < cfg.maxTries →
      FetchEvent.request k (k % cfg.numArgs) ∈ (doCurlLoop cfg w dat0).events) := by
  have hloop := loop_allFail cfg w hfail cfg.maxTries 0 dat0 hdat
  refine ⟨?_, ?_, ?_⟩
  · intro w2 d k t h
    obtain ⟨k2, _, hsh⟩ := loop_evs_shape cfg w2 cfg.maxTries 0 d _ h
    rcases hsh with h1 | ⟨c, b, h1⟩ | h1
    · injection h1 with ha hb
      subst ha
      exact hb
    · cases h1
    · cases h1
  · intro w2 d k t c b h
    obtain ⟨k2, _, hsh⟩ := loop_evs_shape cfg w2 cfg.maxTries 0 d _ h
    rcases hsh with h1 | ⟨c2, b2, h1⟩ | h1
    · cases h1
    · injection h1 with ha hb
      subst ha
      exact hb
    · cases h1
  · intro k hk
    unfold doCurlLoop
    rw [hloop]
    exact failTrace_request_mem cfg cfg.maxTries 0 k (Nat.zero_le k) (by omega)

/-- Witness for C3: with two targets, attempts 2 and 3 hit targets 0 and 1. -/
theorem C3_witness :
    FetchEvent.request 2 (2 % cfgAF.numArgs) ∈ (doCurlLoop cfgAF wAF none).events ∧
    FetchEvent.request 3 (3 % cfgAF.numArgs) ∈ (doCurlLoop cfgAF wAF none).events := by
  have h := C3_round_robin_targets cfgAF wAF none (by decide)
    (fun k => ⟨rfl, Or.inl rfl⟩) rfl
  exact ⟨h.2.2 2 (by decide), h.2.2 3 (by decide)⟩

/-- Counterexample to C4 as stated: caching is enabled, force-refresh is
off, and a fresh cache entry (`now ≤ mtime + maxAge`, indeed `mtime = now`)
exists for target 0 - yet the run issues a network request, because the
cached bytes are the empty JSON object, which unmarshals to an empty map and
leaves the loop condition `len(dat) == 0` true. -/
theorem C4_counterexample :
    cfgC4x.useCache = true ∧ cfgC4x.flush = false ∧
    wC4x.stat 0 = some 50 ∧ ((50 : Int) ≤ 50 + cfgC4x.maxAge) ∧
    (cacheScanTop cfgC4x wC4x).hit = some 0 ∧
    FetchEvent.request 0 0 ∈
      (doCurlLoop cfgC4x wC4x (cacheScanTop cfgC4x wC4x).dat).events := by
  decide

/-- C4 (amended): if caching is enabled, force-refresh is off, and a cache
entry passing the code's age check exists for target 0 whose bytes parse as
a NON-EMPTY JSON object, then the scan breaks at target 0, the cached object
becomes the document, and the retry loop makes zero network requests; more
generally any non-empty parsed document short-circuits every remaining
attempt. -/
theorem C4_amended_cache_hit_short_circuit (cfg : Cfg) (w : World) (mt : Int)
    (fs : List (String × Nat))
    (hN : 0 < cfg.numArgs) (huc : cfg.useCache = true) (hfl : cfg.flush = false)
    (hstat : w.stat 0 = some mt) (hfresh : mt < w.now + cfg.maxAge)
    (hread : w.readCache 0 = some (Content.valid (JValue.obj fs)))
    (hne : fs ≠ []) :
    (cacheScanTop cfg w).hit = some 0 ∧
    (cacheScanTop cfg w).dat = some fs ∧
    doCurlLoop cfg w (cacheScanTop cfg w).dat =
      ⟨some fs, [], 0, LoopOutcome.ok⟩ ∧
    (∀ d, datLen d ≠ 0 → doCurlLoop cfg w d = ⟨d, [], 0, LoopOutcome.ok⟩) := by
  have hscan := scan_hit_zero cfg w mt (Content.valid (JValue.obj fs)) hN hstat
    hfl huc hfresh hread
  have hdat : (cacheScanTop cfg w).dat = some fs := by
    rw [hscan]
    rfl
  have hlen : datLen (some fs) ≠ 0 := by
    simp only [datLen]
    intro hz
    exact hne (List.length_eq_zero.mp hz)
  refine ⟨by rw [hscan], hdat, ?_, ?_⟩
  · rw [hdat]
    exact loopFrom_ne cfg w 0 (some fs) cfg.maxTries hlen
  · intro d hd
    exact loopFrom_ne cfg w 0 d cfg.maxTries hd

/-- Witness for the amended C4: a fresh cached one-field object stops the
loop before any request. -/
theorem C4_amended_witness :
    (cacheScanTop cfgC4w wC4w).hit = some 0 ∧
    doCurlLoop cfgC4w wC4w (cacheScanTop cfgC4w wC4w).dat =
      ⟨some [("y", 2)], [], 0, LoopOutcome.ok⟩ := by
  have h := C4_amended_cache_hit_short_circuit cfgC4w wC4w 0 [("y", 2)]
    (by decide) rfl rfl rfl (by decide) rfl (by decide)
  exact ⟨h.1, h.2.2.1⟩

/-- C5: with force-refresh (flush) set and caching enabled, the scan reads
no cache file and leaves the document empty (a network request is still
issued on attempt 0), yet any successfully parsed body is still written to
the round-robin target's cache file; with caching disabled, the scan reads
nothing and the loop writes nothing. -/
theorem C5_flush_and_disabled_cache (cfg cfg2 : Cfg) (w : World) (j : Nat)
    (c : Content)
    (hfl : cfg.flush = true) (hN : 0 < cfg.numArgs) (hM : 0 < cfg.maxTries)
    (hpre0 : preFatal cfg w 0 = false)
    (hnet : w.net j = some c) (hok : parseOkB c = true) (huc : cfg.useCache = true)
    (hprej : preFatal cfg w j = false)
    (hc2 : cfg2.useCache = false) :
    ((cacheScanTop cfg w).dat = none ∧ (cacheScanTop cfg w).hit = none ∧
      ∀ e ∈ (cacheScanTop cfg w).events, e.isRead = false) ∧
    FetchEvent.request 0 (0 % cfg.numArgs) ∈
      (doCurlLoop cfg w (cacheScanTop cfg w).dat).events ∧
    (∀ d, FetchEvent.cacheWrite j (j % cfg.numArgs) c (w.writeOk j) ∈
      (attemptStep cfg w j d).evs) ∧
    ((cacheScanTop cfg2 w).dat = none ∧ (cacheScanTop cfg2 w).hit = none ∧
      ∀ e ∈ (cacheScanTop cfg2 w).events, e.isRead = false) ∧
    (∀ d e, e ∈ (doCurlLoop cfg2 w d).events → e.isWrite = false) := by
  have hcond : ∀ i mt, w.stat i = some mt →
      ¬(cfg.flush = false ∧ cfg.useCache = true ∧ mt < w.now + cfg.maxAge) := by
    intro i mt _ hc
    rw [hfl] at hc
    exact absurd hc.1 (by simp)
  have hscan := scan_no_hit cfg w hcond cfg.numArgs 0 none
  have hcond2 : ∀ i mt, w.stat i = some mt →
      ¬(cfg2.flush = false ∧ cfg2.useCache = true ∧ mt < w.now + cfg2.maxAge) := by
    intro i mt _ hc
    rw [hc2] at hc
    exact absurd hc.2.1 (by simp)
  have hscan2 := scan_no_hit cfg2 w hcond2 cfg2.numArgs 0 none
  have hd0 : (cacheScanTop cfg w).dat = none := hscan.1
  refine ⟨hscan, ?_, ?_, hscan2, ?_⟩
  · rw [hd0]
    cases hmt : cfg.maxTries with
    | zero => omega
    | succ m =>
      unfold doCurlLoop
      rw [hmt]
      exact loop_step_sub cfg w 0 none m rfl _ (step_request_mem cfg w 0 none hpre0)
  · intro d
    exact step_write_mem cfg w j d c hprej hnet hok huc
  · intro d e he
    exact loop_no_write cfg2 w hc2 cfg2.maxTries 0 d e he

/-- Witness for C5: with flush set a request is still made, and the in-loop
write to the cache file still happens on a parsed body. -/
theorem C5_witness :
    FetchEvent.request 0 (0 % cfgC5a.numArgs) ∈
      (doCurlLoop cfgC5a wC5 (cacheScanTop cfgC5a wC5).dat).events ∧
    FetchEvent.cacheWrite 0 (0 % cfgC5a.numArgs)
        (Content.valid (JValue.obj [("a", 1)])) (wC5.writeOk 0) ∈
      (attemptStep cfgC5a wC5 0 none).evs := by
  have h := C5_flush_and_disabled_cache cfgC5a cfgC5b wC5 0
    (Content.valid (JValue.obj [("a", 1)])) rfl (by decide) (by decide)
    rfl rfl rfl rfl rfl rfl
  exact ⟨h.2.1, h.2.2.1 none⟩

/-- C6: when the retry loop ends normally with the document still empty
after its whole budget (exhaustion), the process does not abort: provided
the query compiles, the output file is creatable and the engine yields no
error value on the empty document, the exit code is 0. -/
theorem C6_exhaustion_exits_zero (cfg : Cfg) (w : World) (q : QueryWorld)
    (useFile : Bool)
    (hout : (doCurlLoop cfg w (cacheScanTop cfg w).dat).outcome = LoopOutcome.ok)
    (hempty : datLen (doCurlLoop cfg w (cacheScanTop cfg w).dat).dat = 0)
    (hexh : (doCurlLoop cfg w (cacheScanTop cfg w).dat).attempts = cfg.maxTries)
    (hq : q.queryParseOk = true)
    (hcr : q.createOk = true)
    (herr : ∀ r ∈ q.results (doCurlLoop cfg w (cacheScanTop cfg w).dat).dat,
      isErr r = false) :
    programExit cfg w q useFile = 0 := by
  obtain ⟨z, hz⟩ := wr_total cfg useFile
    (q.results (doCurlLoop cfg w (cacheScanTop cfg w).dat).dat) [] none herr
  simp only [programExit]
  rw [hout]
  dsimp only
  rw [if_neg (by simp [hq] : ¬q.queryParseOk = false), hcr, hz]

/-- Witness for C6: one target, two tries, both transport failures, empty
result sequence: exit code 0. -/
theorem C6_witness : programExit cfgC6 wC6 qC6 false = 0 := by
  exact C6_exhaustion_exits_zero cfgC6 wC6 qC6 false (by decide) (by decide)
    (by decide) rfl rfl (by intro r hr; simp [qC6] at hr)

/-- C7: a body that fails to parse as JSON is fatal exactly when debug mode
is on (otherwise the iteration just continues with the document unchanged),
and a failing cache write after a parsed body is fatal exactly when debug
mode is on (otherwise the iteration still breaks the loop successfully). -/
theorem C7_debug_promotion (cfg : Cfg) (w : World) (j1 j2 : Nat)
    (c1 c2 : Content) (d1 d2 : JDoc)
    (hpre1 : preFatal cfg w j1 = false) (hnet1 : w.net j1 = some c1)
    (hbad : parseOkB c1 = false)
    (hpre2 : preFatal cfg w j2 = false) (hnet2 : w.net j2 = some c2)
    (hgood : parseOkB c2 = true) (huc : cfg.useCache = true)
    (hw : w.writeOk j2 = false) :
    ((attemptStep cfg w j1 d1).isFatal = cfg.debug) ∧
    (cfg.debug = false →
      attemptStep cfg w j1 d1 =
        StepOut.cont d1 (FetchEvent.request j1 (j1 % cfg.numArgs) :: sleepEvs cfg j1)) ∧
    ((attemptStep cfg w j2 d2).isFatal = cfg.debug) ∧
    (cfg.debug = false → (attemptStep cfg w j2 d2).isBroke = true) := by
  have hs1 : attemptStep cfg w j1 d1 =
      if cfg.debug = true then
        StepOut.fatal d1 [FetchEvent.request j1 (j1 % cfg.numArgs)]
      else
        StepOut.cont d1 (FetchEvent.request j1 (j1 % cfg.numArgs) :: sleepEvs cfg j1) := by
    unfold attemptStep
    rw [if_neg (by simp [hpre1] : ¬preFatal cfg w j1 = true), hnet1]
    dsimp only
    rw [unmarshal_bad c1 d1 hbad]
    rfl
  have hu2 : ¬(unmarshalMap c2 d2).2 = false := by
    rw [unmarshal_snd, hgood]
    simp
  have hs2 : attemptStep cfg w j2 d2 =
      if cfg.debug = true then
        StepOut.fatal (unmarshalMap c2 d2).1
          [FetchEvent.request j2 (j2 % cfg.numArgs),
            FetchEvent.cacheWrite j2 (j2 % cfg.numArgs) c2 (w.writeOk j2)]
      else
        StepOut.broke (unmarshalMap c2 d2).1
          [FetchEvent.request j2 (j2 % cfg.numArgs),
            FetchEvent.cacheWrite j2 (j2 % cfg.numArgs) c2 (w.writeOk j2)] := by
    unfold attemptStep
    rw [if_neg (by simp [hpre2] : ¬preFatal cfg w j2 = true), hnet2]
    dsimp only
    rw [if_neg hu2, if_neg (by simp [huc] : ¬cfg.useCache = false)]
    by_cases hdbg : cfg.debug = true
    · rw [if_pos ⟨hw, hdbg⟩, if_pos hdbg]
    · rw [if_neg (fun hcon => hdbg hcon.2), if_neg hdbg]
  cases hdbg : cfg.debug with
  | false =>
    rw [hdbg] at hs1 hs2
    rw [if_neg (by simp : ¬(false = true))] at hs1 hs2
    refine ⟨?_, ?_, ?_, ?_⟩
    · rw [hs1]
      rfl
    · intro _
      exact hs1
    · rw [hs2]
      rfl
    · intro _
      rw [hs2]
      rfl
  | true =>
    rw [hdbg] at hs1 hs2
    rw [if_pos rfl] at hs1 hs2
    refine ⟨?_, ?_, ?_, ?_⟩
    · rw [hs1]
      rfl
    · intro hco
      exact absurd hco (by simp)
    · rw [hs2]
      rfl
    · intro hco
      exact absurd hco (by simp)

/-- Witness for C7: with debug off, an invalid body continues the loop and a
failing cache write after a parsed body still breaks it. -/
theorem C7_witness :
    (attemptStep cfgC7 wC7 0 none).isFatal = cfgC7.debug ∧
    (attemptStep cfgC7 wC7 1 none).isBroke = true := by
  have h := C7_debug_promotion cfgC7 wC7 0 1 (Content.invalid 0)
    (Content.valid (JValue.obj [("a", 1)])) none none rfl rfl rfl rfl rfl rfl rfl rfl
  exact ⟨h.1, h.2.2.2 rfl⟩

/-- C8: once the parsed document is non-empty the loop's continuation
condition `j < maxTries && len(dat) == 0` is false and the loop performs no
further iteration: no request, no cache write, no sleep, zero attempts. -/
theorem C8_success_short_circuit (cfg : Cfg) (w : World) (j rem : Nat)
    (dat : JDoc) (h : datLen dat ≠ 0) :
    ¬loopCond cfg j dat ∧
    loopFrom cfg w j dat rem = ⟨dat, [], 0, LoopOutcome.ok⟩ := by
  exact ⟨fun hc => h hc.2, loopFrom_ne cfg w j dat rem h⟩

/-- Witness for C8: a one-field document stops a five-try loop instantly. -/
theorem C8_witness :
    loopFrom cfgAF wAF 0 (some [("a", 1)]) 5 =
      ⟨some [("a", 1)], [], 0, LoopOutcome.ok⟩ := by
  exact (C8_success_short_circuit cfgAF wAF 0 5 (some [("a", 1)]) (by decide)).2

/-- C9: a cache file passing the age check and readable but holding invalid
JSON still ends the pre-loop scan (the unmarshal error is ignored): the
document stays empty, no further target's cache entry is examined, and the
retry loop then starts from attempt 0 against target 0. -/
theorem C9_invalid_cached_json (cfg : Cfg) (w : World) (mt : Int) (c : Content)
    (hN : 0 < cfg.numArgs) (hM : 0 < cfg.maxTries)
    (huc : cfg.useCache = true) (hfl : cfg.flush = false)
    (hstat : w.stat 0 = some mt) (hfresh : mt < w.now + cfg.maxAge)
    (hread : w.readCache 0 = some c) (hbad : parseOkB c = false)
    (hpre : preFatal cfg w 0 = false) :
    (cacheScanTop cfg w).hit = some 0 ∧
    (cacheScanTop cfg w).dat = none ∧
    (cacheScanTop cfg w).events = [ScanEvent.statCheck 0, ScanEvent.read 0] ∧
    FetchEvent.request 0 (0 % cfg.numArgs) ∈
      (doCurlLoop cfg w (cacheScanTop cfg w).dat).events := by
  have hscan := scan_hit_zero cfg w mt c hN hstat hfl huc hfresh hread
  have hdat : (cacheScanTop cfg w).dat = none := by
    rw [hscan]
    rw [show (unmarshalMap c none) = (none, false) from unmarshal_bad c none hbad]
  refine ⟨by rw [hscan], hdat, by rw [hscan], ?_⟩
  rw [hdat]
  cases hmt : cfg.maxTries with
  | zero => omega
  | succ m =>
    unfold doCurlLoop
    rw [hmt]
    exact loop_step_sub cfg w 0 none m rfl _ (step_request_mem cfg w 0 none hpre)

/-- Witness for C9: two targets, a fresh unreadable-as-JSON cache file on
target 0: the scan stops there and the loop still requests target 0. -/
theorem C9_witness :
    (cacheScanTop cfgC9 wC9).events = [ScanEvent.statCheck 0, ScanEvent.read 0] ∧
    FetchEvent.request 0 (0 % cfgC9.numArgs) ∈
      (doCurlLoop cfgC9 wC9 (cacheScanTop cfgC9 wC9).dat).events := by
  have h := C9_invalid_cached_json cfgC9 wC9 0 (Content.invalid 7)
    (by decide) (by decide) rfl rfl rfl (by decide) rfl rfl rfl
  exact ⟨h.2.2.1, h.2.2.2⟩

/-- C10: with an output file configured, `os.Create` re-creates (truncates)
the file inside the per-result loop, so for two or more results the file
ends up holding only the last result's line, while the no-output-file run
prints every result's line to stdout. -/
theorem C10_output_file_truncation (cfg : Cfg) (rs : List QOut) (v : RVal)
    (hdbg : cfg.debug = false)
    (herr : ∀ r ∈ rs, isErr r = false)
    (hlen : 2 ≤ rs.length)
    (hlast : rs.getLast? = some (QOut.val v)) :
    writeResults cfg true true rs [] none = some ([], some (renderLine cfg v)) ∧
    writeResults cfg false true rs [] none = some (rs.map (lineOf cfg), none) ∧
    (rs.map (lineOf cfg)).length = rs.length := by
  refine ⟨wr_file_last cfg hdbg rs v [] none herr hlast, ?_,
    List.length_map rs (lineOf cfg)⟩
  have h := wr_stdout_all cfg hdbg rs [] none herr
  simpa using h

/-- Witness for C10: two values: the file holds only the second line. -/
theorem C10_witness :
    writeResults cfgAF true true [QOut.val rvA, QOut.val rvB] [] none =
      some ([], some (renderLine cfgAF rvB)) := by
  exact (C10_output_file_truncation cfgAF [QOut.val rvA, QOut.val rvB] rvB rfl
    (by decide) (by decide) (by decide)).1
